import Mathlib

/-!
Verification of the business-scraper dashboard (Catalog) logic.

The dashboard is a JavaScript class (`Dashboard` in `src/dashboard.js`, with a
revised near-duplicate variant embedded in `src/unnamed/part_000`).  This file
shallowly embeds the data-handling pipeline of both variants:

  * `loadBusinesses`  — payload extraction and synthetic id assignment,
  * `renderBusinesses` — filter, sort, and per-record card derivation,
  * `showBusinessDetails` — detail-panel selection by id.

JavaScript values flowing through the dashboard are modelled by `JSVal`;
machine behaviour of the handful of standard-library operations the code uses
(`toLowerCase`, `includes`, `localeCompare`, `new Date`, `Array.prototype.sort`,
property access, string coercion) is modelled explicitly below, with comments
marking the few places where the model is a documented approximation of
library semantics that no considered input reaches.
-/

/-- Model of a JavaScript value as it occurs in the dashboard: the six JSON
value shapes plus `undefined` (produced by absent-property reads).  JS numbers
are modelled as integers: every numeric value the dashboard manipulates
(coordinates, ids, epoch differences) is integral in the considered payloads;
`NaN` never needs a representation because the only `NaN` producer
(`new Date` on unparseable input) is modelled by `Option` in `jsDateMs`. -/
inductive JSVal where
  | undefined : JSVal
  | null : JSVal
  | bool : Bool → JSVal
  | num : Int → JSVal
  | str : String → JSVal
  | arr : List JSVal → JSVal
  | obj : List (String × JSVal) → JSVal

/-- JS truthiness (`Boolean(v)`): `undefined`, `null`, `false`, `0` and the
empty string are falsy; every object and array is truthy. -/
def truthy : JSVal → Bool
  | .undefined => false
  | .null => false
  | .bool b => b
  | .num n => n != 0
  | .str s => s != ""
  | .arr _ => true
  | .obj _ => true

/-- First binding of a key in an object's property list.  `JSON.parse` never
produces duplicate keys, so first-match lookup coincides with JS semantics on
every payload considered here. -/
def lookupKV : List (String × JSVal) → String → JSVal
  | [], _ => .undefined
  | (k', v) :: rest, k => if k' = k then v else lookupKV rest k

/-- Total property read: `v[k]` for a non-nullish base.  Primitive bases have
none of the record properties the dashboard reads, so they yield `undefined`;
a nullish base is handled by `jsGetE` (JS throws there). -/
def jsGetD : JSVal → String → JSVal
  | .obj kvs, k => lookupKV kvs k
  | _, _ => .undefined

/-- Property read as evaluated by the code: reading a property of `null` or
`undefined` throws a `TypeError` (modelled by `Except.error`). -/
def jsGetE : JSVal → String → Except Unit JSVal
  | .undefined, _ => .error ()
  | .null, _ => .error ()
  | v, k => .ok (jsGetD v k)

/-- Overwrite-or-append of one key in an object's property list: JS property
assignment replaces an existing property in place and appends a new one at the
end of the property order. -/
def setKV : List (String × JSVal) → String → JSVal → List (String × JSVal)
  | [], k, v => [(k, v)]
  | (k', v') :: rest, k, v =>
      if k' = k then (k, v) :: rest else (k', v') :: setKV rest k v

/-- Calling a `String.prototype` method (`toLowerCase`, `localeCompare`,
`split`, `replace`) on a value: a `TypeError` unless the receiver is a
string. -/
def asStrRecv : JSVal → Except Unit String
  | .str s => .ok s
  | _ => .error ()

/-- Model of `String.prototype.toLowerCase`: character-wise lowering.  This is
exact on ASCII data; the full Unicode case map is not needed by any input
considered here. -/
def jsToLower (s : String) : String := ⟨s.toList.map Char.toLower⟩

/-- Does `sub` occur at the start of `hay`? -/
def startsWithL : List Char → List Char → Bool
  | [], _ => true
  | _ :: _, [] => false
  | c :: cs, d :: ds => c == d && startsWithL cs ds

/-- Does `sub` occur contiguously somewhere in `hay`? -/
def hasSubL (hay sub : List Char) : Bool :=
  match hay with
  | [] => sub.isEmpty
  | _ :: t => startsWithL sub hay || hasSubL t sub

/-- Model of `String.prototype.includes`: `s.includes(sub)`.  The empty
search string is contained in every string, as in JS. -/
def jsIncludes (s sub : String) : Bool := hasSubL s.toList sub.toList

/-- The decimal digit character for `d < 10`. -/
def digitChar : Nat → Char
  | 0 => '0' | 1 => '1' | 2 => '2' | 3 => '3' | 4 => '4'
  | 5 => '5' | 6 => '6' | 7 => '7' | 8 => '8' | 9 => '9'
  | _ => '*'

/-- Numeric value of a decimal digit character (0 for non-digits). -/
def digitVal : Char → Nat
  | '0' => 0 | '1' => 1 | '2' => 2 | '3' => 3 | '4' => 4
  | '5' => 5 | '6' => 6 | '7' => 7 | '8' => 8 | '9' => 9
  | _ => 0

/-- Little-endian decimal digits of `n`, with explicit fuel so that the
definition is structural (and hence reduces inside the kernel).  With
`fuel ≥ n` the fuel never runs out. -/
def natRevDigits : Nat → Nat → List Char
  | 0, _ => []
  | _ + 1, 0 => []
  | fuel + 1, n => digitChar (n % 10) :: natRevDigits fuel (n / 10)

/-- Model of JS number-to-string coercion for a nonnegative integer
(`String(n)` / template-literal interpolation): decimal digits. -/
def jsNatStr (n : Nat) : String :=
  if n = 0 then "0" else ⟨(natRevDigits n n).reverse⟩

/-- Model of JS number-to-string coercion for an integer. -/
def jsIntStr (i : Int) : String :=
  if i < 0 then "-" ++ jsNatStr i.natAbs else jsNatStr i.natAbs

/-- Model of JS string coercion `String(v)` as used in template literals.
Arrays coerce in JS by joining their coerced elements with commas; no payload
considered by the claims interpolates an array, so the recursive join is
abbreviated to the empty string here (flagged, unused by every theorem). -/
def jsToString : JSVal → String
  | .undefined => "undefined"
  | .null => "null"
  | .bool true => "true"
  | .bool false => "false"
  | .num n => jsIntStr n
  | .str s => s
  | .arr _ => ""
  | .obj _ => "[object Object]"

/-- Three-way lexicographic comparison of character lists by code point. -/
def lexCmp : List Char → List Char → Int
  | [], [] => 0
  | [], _ :: _ => -1
  | _ :: _, [] => 1
  | a :: as, b :: bs =>
      if a.toNat < b.toNat then -1
      else if b.toNat < a.toNat then 1
      else lexCmp as bs

/-- Model of `String.prototype.localeCompare`: some locale-dependent
comparator returning a negative, zero or positive number.  It is modelled as
code-point order; no claim depends on the collation beyond it being a
comparator. -/
def localeCmp (a b : String) : Int := lexCmp a.toList b.toList

/-- Is `c` a decimal digit? -/
def isDigitCh (c : Char) : Bool := 48 ≤ c.toNat && c.toNat ≤ 57

/-- Decimal value of a digit list (most significant first). -/
def digitsVal (l : List Char) : Nat := l.foldl (fun acc c => acc * 10 + digitVal c) 0

/-- Model of JS date parsing restricted to ISO `YYYY-MM-DD` date strings, the
shape of the scraper's `search_date` field.  The result is an order-faithful
stand-in for the epoch timestamp (`y*10000 + m*100 + d`, monotone in the
calendar date); every other string is an Invalid Date (`none`, i.e. `NaN`). -/
def parseDateChars : List Char → Option Int
  | [y1, y2, y3, y4, h1, m1, m2, h2, d1, d2] =>
      if h1 = '-' ∧ h2 = '-' ∧
         isDigitCh y1 ∧ isDigitCh y2 ∧ isDigitCh y3 ∧ isDigitCh y4 ∧
         isDigitCh m1 ∧ isDigitCh m2 ∧ isDigitCh d1 ∧ isDigitCh d2 ∧
         1 ≤ digitsVal [m1, m2] ∧ digitsVal [m1, m2] ≤ 12 ∧
         1 ≤ digitsVal [d1, d2] ∧ digitsVal [d1, d2] ≤ 31 then
        some ((digitsVal [y1, y2, y3, y4] * 10000 +
               digitsVal [m1, m2] * 100 + digitsVal [d1, d2] : Nat) : Int)
      else none
  | _ => none

/-- Model of `new Date(v).getTime()`: `none` is `NaN` (Invalid Date).
`new Date(undefined)` is invalid while `new Date(null)` is the epoch, as in
JS.  Arrays and objects coerce through strings in JS and are modelled as
invalid; no considered record carries such a `search_date`. -/
def jsDateMs : JSVal → Option Int
  | .num n => some n
  | .str s => parseDateChars s.toList
  | .bool b => some (if b then 1 else 0)
  | .null => some 0
  | .undefined => none
  | .arr _ => none
  | .obj _ => none

/-! ## The query pipeline of `renderBusinesses`

Source (`src/unnamed/part_000` lines 614-730; the filter and sort are
byte-identical in `src/dashboard.js` lines 113-135):

    const filter = this.filterInput.value.toLowerCase();
    let filtered = this.businesses.filter(b => {
        if (!b.name || !b.business_type) { ...log warning...; return false; }
        return b.name.toLowerCase().includes(filter) ||
               b.business_type.toLowerCase().includes(filter);
    });
    filtered.sort((a, b) => {
        if (sortBy === 'name') return a.name.localeCompare(b.name);
        if (sortBy === 'type') return a.business_type.localeCompare(b.business_type);
        if (sortBy === 'date') return new Date(b.search_date) - new Date(a.search_date);
        return 0;
    });
-/

/-- The filter callback.  `!b.name` short-circuits before `b.business_type`
is read, and the name test short-circuits before `business_type.toLowerCase()`
is called, exactly as in the source.  An exception from a callback propagates
out of `Array.prototype.filter`. -/
def keepBusiness (filter : String) (b : JSVal) : Except Unit Bool := do
  let nameV ← jsGetE b "name"
  if truthy nameV = false then
    .ok false
  else do
    let btV ← jsGetE b "business_type"
    if truthy btV = false then
      .ok false
    else do
      let nameS ← asStrRecv nameV
      if jsIncludes (jsToLower nameS) filter then
        .ok true
      else do
        let btS ← asStrRecv btV
        .ok (jsIncludes (jsToLower btS) filter)

/-- Monadic list filter: the embedding of `Array.prototype.filter` with a
possibly throwing callback. -/
def filterE (p : α → Except Unit Bool) : List α → Except Unit (List α)
  | [] => .ok []
  | a :: t => do
    let c ← p a
    let r ← filterE p t
    .ok (if c then a :: r else r)

/-- The three-way sort comparator selected by the `sortBy` dropdown value.
For `date`, the comparator is `new Date(b.search_date) - new Date(a.search_date)`;
when either date is invalid the subtraction is `NaN`, which the ES
`SortCompare` operation coerces to `+0` — modelled by returning 0.
`localeCompare` throws unless its receiver is a string; its argument is
string-coerced. -/
def jsCompare (sortBy : String) (a b : JSVal) : Except Unit Int :=
  if sortBy = "name" then do
    let x ← jsGetE a "name"
    let xs ← asStrRecv x
    let y ← jsGetE b "name"
    .ok (localeCmp xs (jsToString y))
  else if sortBy = "type" then do
    let x ← jsGetE a "business_type"
    let xs ← asStrRecv x
    let y ← jsGetE b "business_type"
    .ok (localeCmp xs (jsToString y))
  else if sortBy = "date" then do
    let xv ← jsGetE b "search_date"
    let yv ← jsGetE a "search_date"
    .ok (match jsDateMs xv, jsDateMs yv with
         | some tb, some ta => tb - ta
         | _, _ => 0)
  else
    .ok 0

/-- `a` may be placed before `b`: comparator value at most 0. -/
def jsSortLe (sortBy : String) (a b : JSVal) : Except Unit Bool := do
  let c ← jsCompare sortBy a b
  .ok (decide (c ≤ 0))

/-- Stable insertion of `a` into `l`: `a` goes in front of the first element
it compares `≤ 0` against.  A comparator exception propagates. -/
def insertE (le : α → α → Except Unit Bool) (a : α) : List α → Except Unit (List α)
  | [] => .ok [a]
  | b :: t => do
    let c ← le a b
    if c then .ok (a :: b :: t)
    else do
      let r ← insertE le a t
      .ok (b :: r)

/-- Embedding of `Array.prototype.sort`: a stable sort driven by the
comparator.  ES2019+ requires the sort to be stable and leaves the order
implementation-defined only when the comparator is inconsistent; a stable
insertion sort realises the specified behaviour. -/
def sortE (le : α → α → Except Unit Bool) : List α → Except Unit (List α)
  | [] => .ok []
  | a :: t => do
    let s ← sortE le t
    insertE le a s

/-- The record-level query: filter then sort, as `renderBusinesses` computes
`filtered`.  The filter text is lowercased once, before filtering. -/
def queryRecords (businesses : List JSVal) (filterText sortBy : String) :
    Except Unit (List JSVal) := do
  let fl ← filterE (keepBusiness (jsToLower filterText)) businesses
  sortE (jsSortLe sortBy) fl

/-! ## Per-record view derivation -/

/-- The rendering-safe projection of one record that the card template
interpolates (one card per record in `renderBusinesses`). -/
structure Card where
  isError : Bool
  name : String
  businessType : String
  address : String
  mapLink : Option String
  phone : Option String
  website : Option String
  hoursHtml : Option String
  cardId : String
deriving DecidableEq

/-- The error placeholder card produced by the per-record `catch` block of the
`part_000` variant. -/
def errorCard : Card :=
  { isError := true, name := "Error Rendering Business", businessType := ""
    address := "", mapLink := none, phone := none, website := none
    hoursHtml := none, cardId := "" }

/-- `replace(/_/g, ' ')` on a string. -/
def underscoresToSpaces (s : String) : String :=
  ⟨s.toList.map (fun c => if c = '_' then ' ' else c)⟩

/-- Model of `s.split('\n')`: the list of line strings between line breaks;
the empty string splits to one empty line, as in JS. -/
def splitNlAux : List Char → List Char → List String
  | [], cur => [⟨cur.reverse⟩]
  | c :: rest, cur =>
      if c = '\n' then ⟨cur.reverse⟩ :: splitNlAux rest []
      else splitNlAux rest (c :: cur)

def jsSplitNl (s : String) : List String := splitNlAux s.toList []

/-- `renderOpeningHours` from the `part_000` variant: returns `''` for a falsy
argument, splits a string argument on line breaks into `<div>` lines, and
catches its own exception (a non-string truthy argument has no `split`
method) returning a placeholder line. -/
def renderOpeningHours (hours : JSVal) : String :=
  if truthy hours = false then ""
  else
    match hours with
    | .str s => String.join ((jsSplitNl s).map (fun h => "<div>" ++ h ++ "</div>"))
    | _ => "<div>Hours information unavailable</div>"

/-- The guarded opening-hours expression of the `part_000` card body:
`b.opening_hours ? renderOpeningHours(b.opening_hours) : ''`.  Total by
construction. -/
def scheduleHtml (v : JSVal) : String :=
  if truthy v then renderOpeningHours v else ""

/-- The `try` block of the `part_000` card template (lines 650-704): derives
every displayed field with fallbacks.  Throw sites, in evaluation order: any
property read on a nullish record, and `.replace` on a truthy non-string
`business_type`.  The `Math.random()` id fallback is modelled by a fixed tag
(no claim concerns it). -/
def deriveView (b : JSVal) : Except Unit Card := do
  let nameV ← jsGetE b "name"
  let btV ← jsGetE b "business_type"
  let btS ← asStrRecv (if truthy btV then btV else .str "unknown")
  let addrV ← jsGetE b "address"
  let ohV ← jsGetE b "opening_hours"
  let idV ← jsGetE b "id"
  let latV ← jsGetE b "latitude"
  let lngV ← jsGetE b "longitude"
  let phoneV ← jsGetE b "phone"
  let webV ← jsGetE b "website"
  let hoursS := scheduleHtml ohV
  .ok
    { isError := false
      name := jsToString (if truthy nameV then nameV else .str "No Name")
      businessType := underscoresToSpaces btS
      address := jsToString (if truthy addrV then addrV else .str "No Address")
      mapLink :=
        if truthy latV && truthy lngV then
          some ("https://www.google.com/maps/search/?api=1&query=" ++
                jsToString latV ++ "," ++ jsToString lngV)
        else none
      phone := if truthy phoneV then some (jsToString phoneV) else none
      website := if truthy webV then some (jsToString webV) else none
      hoursHtml :=
        if hoursS = "" then none
        else some (String.join ((jsSplitNl hoursS).map
                     (fun h => "<div>" ++ h ++ "</div>")))
      cardId := if truthy idV then jsToString idV else "biz-random" }

/-- The per-record `try`/`catch` of the `part_000` variant: a failing
derivation is replaced by the error placeholder card; total. -/
def cardOf (b : JSVal) : Card :=
  match deriveView b with
  | .ok c => c
  | .error _ => errorCard

/-- `renderBusinesses` of the `part_000` variant, up to its HTML serialisation:
filter, sort, then one card per surviving record (each derivation failure
caught per record). -/
def renderCards (businesses : List JSVal) (filterText sortBy : String) :
    Except Unit (List Card) := do
  let recs ← queryRecords businesses filterText sortBy
  .ok (recs.map cardOf)

/-- The card body of the `src/dashboard.js` variant (lines 137-188): no
`try`/`catch`, and the hours block interpolates
`b.opening_hours.split('\n')` unconditionally, so a record without a string
`opening_hours` throws a `TypeError`. -/
def deriveViewJs (b : JSVal) : Except Unit Card := do
  let nameV ← jsGetE b "name"
  let btV ← jsGetE b "business_type"
  let btS ← asStrRecv (if truthy btV then btV else .str "unknown")
  let addrV ← jsGetE b "address"
  let latV ← jsGetE b "latitude"
  let lngV ← jsGetE b "longitude"
  let phoneV ← jsGetE b "phone"
  let webV ← jsGetE b "website"
  let ohV ← jsGetE b "opening_hours"
  let ohS ← asStrRecv ohV
  let idV ← jsGetE b "id"
  .ok
    { isError := false
      name := jsToString (if truthy nameV then nameV else .str "No Name")
      businessType := underscoresToSpaces btS
      address := jsToString (if truthy addrV then addrV else .str "No Address")
      mapLink :=
        if truthy latV && truthy lngV then
          some ("https://www.google.com/maps/search/?api=1&query=" ++
                jsToString latV ++ "," ++ jsToString lngV)
        else none
      phone := if truthy phoneV then some (jsToString phoneV) else none
      website := if truthy webV then some (jsToString webV) else none
      hoursHtml := some (String.join ((jsSplitNl ohS).map
                           (fun h => "<div>" ++ h ++ "</div>")))
      cardId := jsToString idV }

/-- Monadic map: the embedding of `Array.prototype.map` with a possibly
throwing callback. -/
def mapE (f : α → Except Unit β) : List α → Except Unit (List β)
  | [] => .ok []
  | a :: t => do
    let b ← f a
    let r ← mapE f t
    .ok (b :: r)

/-- `renderBusinesses` of the `src/dashboard.js` variant: same filter and
sort, but the card map has no per-record `catch`, so one failing record
aborts the whole batch. -/
def renderCardsJs (businesses : List JSVal) (filterText sortBy : String) :
    Except Unit (List Card) := do
  let recs ← queryRecords businesses filterText sortBy
  mapE deriveViewJs recs

/-! ## `loadBusinesses`

Source (`src/unnamed/part_000` lines 529-579; `src/dashboard.js` has the same
`try`/`catch` shell and the same id-assigning `map`, but extracts only
`data.data` and never accepts a bare array):

    try {
        const response = await fetch('businesses.json');
        if (!response.ok) { throw new Error(...); }
        const data = await response.json();
        const businessesArray = Array.isArray(data) ? data : (data.data || []);
        ...
        this.businesses = businessesArray;
        this.businesses = this.businesses.map((b, i) => {
            if (!b.id) { b.id = `biz-i+1`; }
            return b;
        });
        ...
    } catch (error) { this.log(..., 'error'); }
-/

/-- Outcome of the `fetch`/`.json()` prefix of `loadBusinesses`: the promise
rejects, the response is not ok (the code throws), the body fails to parse,
or a JSON value is produced. -/
inductive FetchOutcome where
  | reject : FetchOutcome
  | badStatus : FetchOutcome
  | badJson : FetchOutcome
  | ok : JSVal → FetchOutcome

/-- `Array.isArray(data) ? data : (data.data || [])`.  Reading `.data` off a
`null` payload throws; off any other non-array it yields `undefined`, and a
falsy `data` property falls back to `[]`. -/
def extractArr (data : JSVal) : Except Unit JSVal :=
  match data with
  | .arr l => .ok (.arr l)
  | .null => .error ()
  | .undefined => .error ()
  | d => .ok (if truthy (jsGetD d "data") then jsGetD d "data" else .arr [])

/-- The id-assigning `map` callback at input position `i` (0-based):
`if (!b.id) b.id = 'biz-' + (i+1)`.  Reading `.id` off a nullish element
throws; assignment to a property of a primitive is a silent no-op in sloppy
mode.  (JS would also attach an `id` property to an array element; arrays
carry no property map in this model and no considered payload has array
elements, so they are returned unchanged.) -/
def assignId (i : Nat) (b : JSVal) : Except Unit JSVal :=
  match b with
  | .undefined => .error ()
  | .null => .error ()
  | .obj kvs =>
      .ok (if truthy (lookupKV kvs "id") then .obj kvs
           else .obj (setKV kvs "id" (.str ("biz-" ++ jsNatStr (i + 1)))))
  | other => .ok other

/-- The id-assigning `map` over the whole array, starting at position `s`.
The callback mutates the shared record objects, so when it throws midway the
original array keeps the already-mutated earlier elements: the error value
carries that partially processed list, which is what `this.businesses` holds
after the `catch`. -/
def assignIds : Nat → List JSVal → Except (List JSVal) (List JSVal)
  | _, [] => .ok []
  | s, b :: t =>
      match assignId s b with
      | .error _ => .error (b :: t)
      | .ok b' =>
          match assignIds (s + 1) t with
          | .ok t' => .ok (b' :: t')
          | .error t'' => .error (b' :: t'')

/-- The whole of `loadBusinesses` (the `part_000` variant) as a function of
the prior `this.businesses` value and the fetch outcome.  Returns the new
`this.businesses` together with whether the error-level diagnostic of the
`catch` block was logged; the function is total — no exception reaches the
caller.  Before `this.businesses` is first assigned, any throw lands in the
`catch` with the prior list intact; after `this.businesses = businessesArray`,
a throw from `.map` (nullish element, or `.map` missing on a non-array)
leaves the raw extracted value in place. -/
def loadBusinesses (prior : JSVal) (r : FetchOutcome) : JSVal × Bool :=
  match r with
  | .reject => (prior, true)
  | .badStatus => (prior, true)
  | .badJson => (prior, true)
  | .ok data =>
      match extractArr data with
      | .error _ => (prior, true)
      | .ok ba =>
          match ba with
          | .arr l =>
              match assignIds 0 l with
              | .ok l' => (.arr l', false)
              | .error l'' => (.arr l'', true)
          | nonArr => (nonArr, true)

/-! ## Dashboard state and `showBusinessDetails` -/

/-- The mutable dashboard fields the Catalog logic touches: the authoritative
record list and the current selection. -/
structure DashState where
  businesses : JSVal
  selectedBusiness : Option JSVal

/-- `b.id === id` for a string `id`: strict equality, no coercion. -/
def strictEqStr (v : JSVal) (s : String) : Bool :=
  match v with
  | .str t => t == s
  | _ => false

/-- `this.businesses.find(b => b.id === id)`: first match, or `none`; reading
`.id` off a nullish element throws. -/
def findByIdE (idArg : String) : List JSVal → Except Unit (Option JSVal)
  | [] => .ok none
  | b :: t => do
    let v ← jsGetE b "id"
    if strictEqStr v idArg then .ok (some b) else findByIdE idArg t

/-- `loadBusinesses` as a state step. -/
def loadStep (st : DashState) (r : FetchOutcome) : DashState × Bool :=
  let p := loadBusinesses st.businesses r
  ({ st with businesses := p.1 }, p.2)

/-- `renderBusinesses` as a state step: it only reads `this.businesses`
(`filter` returns a fresh array and `sort` reorders that copy), and writes
only `innerHTML`, so the state is returned unchanged; calling `.filter` on a
non-array value throws. -/
def renderStep (st : DashState) (filterText sortBy : String) :
    DashState × Except Unit (List Card) :=
  match st.businesses with
  | .arr l => (st, renderCards l filterText sortBy)
  | _ => (st, .error ())

/-- `showBusinessDetails(id)` (`part_000` lines 732-790).  A falsy id or an
unmatched id logs an error and returns with the state untouched; the lookup
runs over the full `this.businesses`, never the filtered copy.  On a match,
`this.selectedBusiness` is assigned before the sidebar template runs; the
sidebar's only throw site on JSON data is
`business.opening_hours.split('\n')` behind its truthiness guard (a truthy
non-string), and a throw there escapes the function after the selection was
already mutated — the error value carries that state. -/
def showBusinessDetails (st : DashState) (idArg : String) :
    Except DashState (DashState × Bool) :=
  if idArg = "" then .ok (st, true)
  else
    match st.businesses with
    | .arr l =>
        match findByIdE idArg l with
        | .error _ => .error st
        | .ok none => .ok (st, true)
        | .ok (some b) =>
            let st' : DashState := { st with selectedBusiness := some b }
            match jsGetE b "opening_hours" with
            | .error _ => .error st'
            | .ok ohV =>
                if truthy ohV then
                  match ohV with
                  | .str _ => .ok (st', false)
                  | _ => .error st'
                else .ok (st', false)
    | _ => .error st

/-- The `businesses` field after `showBusinessDetails`, whichever way it
returned. -/
def stateBusinesses (r : Except DashState (DashState × Bool)) : JSVal :=
  match r with
  | .ok (st', _) => st'.businesses
  | .error st' => st'.businesses

/-! ## Generic lemmas about the monadic list combinators -/

theorem filterE_ok {α : Type} {p : α → Except Unit Bool} {q : α → Bool} :
    ∀ {l : List α}, (∀ b ∈ l, p b = .ok (q b)) → filterE p l = .ok (l.filter q)
  | [], _ => rfl
  | a :: t, h => by
    have ha := h a (List.mem_cons_self a t)
    have ht := filterE_ok (fun b hb => h b (List.mem_cons_of_mem a hb))
    simp only [filterE, ha, ht, Except.bind, bind, List.filter_cons]

theorem filterE_sub {α : Type} {p : α → Except Unit Bool} :
    ∀ {l r : List α}, filterE p l = .ok r → ∀ b ∈ r, b ∈ l
  | [], r, h => by
    simp only [filterE] at h
    cases h
    simp
  | a :: t, r, h => by
    simp only [filterE, bind, Except.bind] at h
    cases hpa : p a with
    | error e => rw [hpa] at h; cases h
    | ok c =>
        rw [hpa] at h
        cases hft : filterE p t with
        | error e => rw [hft] at h; cases h
        | ok r' =>
            rw [hft] at h
            cases h
            intro b hb
            cases c with
            | true =>
                rcases List.mem_cons.mp hb with hba | hbr
                · exact hba ▸ List.mem_cons_self a t
                · exact List.mem_cons_of_mem a (filterE_sub hft b hbr)
            | false => exact List.mem_cons_of_mem a (filterE_sub hft b hb)

theorem insertE_ok_perm {α : Type} {le : α → α → Except Unit Bool} {a : α} :
    ∀ {l r : List α}, insertE le a l = .ok r → r.Perm (a :: l)
  | [], r, h => by
    simp only [insertE] at h
    cases h
    exact List.Perm.refl _
  | b :: t, r, h => by
    simp only [insertE, bind, Except.bind] at h
    cases hc : le a b with
    | error e => rw [hc] at h; cases h
    | ok c =>
        rw [hc] at h
        cases c with
        | true => cases h; exact List.Perm.refl _
        | false =>
            cases hr : insertE le a t with
            | error e => rw [hr] at h; cases h
            | ok r' =>
                rw [hr] at h
                cases h
                exact ((insertE_ok_perm hr).cons b).trans (List.Perm.swap a b t)

theorem sortE_ok_perm {α : Type} {le : α → α → Except Unit Bool} :
    ∀ {l out : List α}, sortE le l = .ok out → out.Perm l
  | [], out, h => by
    cases h
    exact List.Perm.refl _
  | a :: t, out, h => by
    simp only [sortE, bind, Except.bind] at h
    cases hs : sortE le t with
    | error e => rw [hs] at h; cases h
    | ok s =>
        rw [hs] at h
        exact (insertE_ok_perm h).trans ((sortE_ok_perm hs).cons a)

theorem insertE_total {α : Type} {le : α → α → Except Unit Bool} {a : α} :
    ∀ {l : List α}, (∀ x ∈ l, ∃ c, le a x = .ok c) → ∃ r, insertE le a l = .ok r
  | [], _ => ⟨[a], rfl⟩
  | b :: t, h => by
    obtain ⟨c, hc⟩ := h b (List.mem_cons_self b t)
    obtain ⟨r, hr⟩ := insertE_total (fun x hx => h x (List.mem_cons_of_mem b hx))
    cases c
    · exact ⟨b :: r, by simp [insertE, bind, Except.bind, hc, hr]⟩
    · exact ⟨a :: b :: t, by simp [insertE, bind, Except.bind, hc]⟩

theorem sortE_total {α : Type} {le : α → α → Except Unit Bool} :
    ∀ {l : List α}, (∀ x ∈ l, ∀ y ∈ l, ∃ c, le x y = .ok c) →
      ∃ out, sortE le l = .ok out ∧ out.Perm l
  | [], _ => ⟨[], rfl, List.Perm.refl _⟩
  | a :: t, h => by
    obtain ⟨s, hs, hsp⟩ :=
      sortE_total (fun x hx y hy =>
        h x (List.mem_cons_of_mem a hx) y (List.mem_cons_of_mem a hy))
    obtain ⟨r, hr⟩ := insertE_total (fun x hx =>
      h a (List.mem_cons_self a t) x (List.mem_cons_of_mem a (hsp.mem_iff.mp hx)))
    refine ⟨r, ?_, (insertE_ok_perm hr).trans (hsp.cons a)⟩
    simp [sortE, bind, Except.bind, hs, hr]

/-! ## A pure stable insertion sort mirroring `sortE`, for order lemmas -/

def insertP {α : Type} (leP : α → α → Bool) (a : α) : List α → List α
  | [] => [a]
  | b :: t => if leP a b then a :: b :: t else b :: insertP leP a t

def sortP {α : Type} (leP : α → α → Bool) : List α → List α
  | [] => []
  | a :: t => insertP leP a (sortP leP t)

theorem perm_insertP {α : Type} {leP : α → α → Bool} {a : α} :
    ∀ {l : List α}, (insertP leP a l).Perm (a :: l)
  | [] => List.Perm.refl _
  | b :: t => by
    simp only [insertP]
    by_cases h : leP a b = true
    · simp [h]
    · simp only [h, if_false]
      exact (perm_insertP.cons b).trans (List.Perm.swap a b t)

theorem perm_sortP {α : Type} {leP : α → α → Bool} :
    ∀ {l : List α}, (sortP leP l).Perm l
  | [] => List.Perm.refl _
  | a :: _ => perm_insertP.trans (perm_sortP.cons a)

theorem mem_insertP {α : Type} {leP : α → α → Bool} {a x : α} {l : List α} :
    x ∈ insertP leP a l ↔ x = a ∨ x ∈ l := by
  rw [perm_insertP.mem_iff, List.mem_cons]

theorem mem_sortP {α : Type} {leP : α → α → Bool} {x : α} {l : List α} :
    x ∈ sortP leP l ↔ x ∈ l := perm_sortP.mem_iff

theorem insertE_eq_pure {α : Type} {le : α → α → Except Unit Bool}
    {leP : α → α → Bool} {a : α} :
    ∀ {l : List α}, (∀ x ∈ l, le a x = .ok (leP a x)) →
      insertE le a l = .ok (insertP leP a l)
  | [], _ => rfl
  | b :: t, h => by
    have hb := h b (List.mem_cons_self b t)
    have ht := insertE_eq_pure (fun x hx => h x (List.mem_cons_of_mem b hx))
    simp only [insertE, bind, Except.bind, hb, insertP]
    cases hc : leP a b <;> simp [hc, ht]

theorem sortE_eq_pure {α : Type} {le : α → α → Except Unit Bool} {leP : α → α → Bool} :
    ∀ {l : List α}, (∀ x ∈ l, ∀ y ∈ l, le x y = .ok (leP x y)) →
      sortE le l = .ok (sortP leP l)
  | [], _ => rfl
  | a :: t, h => by
    have hs := sortE_eq_pure (fun x hx y hy =>
      h x (List.mem_cons_of_mem a hx) y (List.mem_cons_of_mem a hy))
    have hi : insertE le a (sortP leP t) = .ok (insertP leP a (sortP leP t)) :=
      insertE_eq_pure (fun x hx =>
        h a (List.mem_cons_self a t) x (List.mem_cons_of_mem a (mem_sortP.mp hx)))
    simp [sortE, bind, Except.bind, hs, hi, sortP]

theorem pairwise_insertP {α : Type} {leP : α → α → Bool} {S : α → Prop}
    (htot : ∀ x y, S x → S y → leP x y = true ∨ leP y x = true)
    (htrans : ∀ x y z, S x → S y → S z → leP x y = true → leP y z = true → leP x z = true)
    {a : α} (ha : S a) :
    ∀ {l : List α}, (∀ x ∈ l, S x) → l.Pairwise (fun x y => leP x y = true) →
      (insertP leP a l).Pairwise (fun x y => leP x y = true)
  | [], _, _ => by simp [insertP]
  | b :: t, hS, hp => by
    have hSb := hS b (List.mem_cons_self b t)
    have hSt := fun x hx => hS x (List.mem_cons_of_mem b hx)
    rcases List.pairwise_cons.mp hp with ⟨hb, hpt⟩
    simp only [insertP]
    by_cases h : leP a b = true
    · simp only [h, if_true]
      refine List.pairwise_cons.mpr ⟨?_, hp⟩
      intro y hy
      rcases List.mem_cons.mp hy with hyb | hyt
      · exact hyb ▸ h
      · exact htrans a b y ha hSb (hSt y hyt) h (hb y hyt)
    · simp only [h, if_false]
      refine List.pairwise_cons.mpr ⟨?_, pairwise_insertP htot htrans ha hSt hpt⟩
      intro y hy
      rcases mem_insertP.mp hy with hya | hyt
      · rcases htot a b ha hSb with hab | hba
        · exact absurd hab h
        · rw [hya]; exact hba
      · exact hb y hyt

theorem pairwise_sortP {α : Type} {leP : α → α → Bool} {S : α → Prop}
    (htot : ∀ x y, S x → S y → leP x y = true ∨ leP y x = true)
    (htrans : ∀ x y z, S x → S y → S z → leP x y = true → leP y z = true → leP x z = true) :
    ∀ {l : List α}, (∀ x ∈ l, S x) →
      (sortP leP l).Pairwise (fun x y => leP x y = true)
  | [], _ => List.Pairwise.nil
  | a :: t, hS => by
    have hSt := fun x hx => hS x (List.mem_cons_of_mem a hx)
    exact pairwise_insertP htot htrans (hS a (List.mem_cons_self a t))
      (fun x hx => hSt x (mem_sortP.mp hx))
      (pairwise_sortP htot htrans hSt)

/-! ## Characterising the filter on data-model-conformant records -/

/-- A value is neither `undefined` nor `null` (property reads succeed). -/
def notNullish : JSVal → Bool
  | .undefined => false
  | .null => false
  | _ => true

/-- A value is either a string or falsy: the shape the data model of the spec
gives the optional string fields `name` and `businessType`. -/
def isStrOrFalsy : JSVal → Bool
  | .str _ => true
  | v => !truthy v

/-- A record conforms to the data model as far as the filter callback reads
it: it is not nullish, and its `name` and `business_type` properties are
strings when present (truthy). -/
def goodForFilter (b : JSVal) : Bool :=
  notNullish b && isStrOrFalsy (jsGetD b "name") && isStrOrFalsy (jsGetD b "business_type")

/-- The pure value computed by the filter callback on a record it does not
throw on. -/
def keepPure (filter : String) (b : JSVal) : Bool :=
  match jsGetD b "name", jsGetD b "business_type" with
  | .str n, .str t =>
      n != "" && t != "" &&
      (jsIncludes (jsToLower n) filter || jsIncludes (jsToLower t) filter)
  | _, _ => false

theorem jsGetE_of_notNullish {b : JSVal} (h : notNullish b = true) (k : String) :
    jsGetE b k = .ok (jsGetD b k) := by
  cases b <;> simp_all [notNullish, jsGetE]

theorem notNullish_of_getD_str {b : JSVal} {k s : String}
    (h : jsGetD b k = .str s) : notNullish b = true := by
  cases b <;> simp_all [jsGetD, notNullish]

theorem isStrOrFalsy_cases {v : JSVal} (h : isStrOrFalsy v = true) :
    (∃ s, v = .str s) ∨ truthy v = false := by
  cases v with
  | str s => exact Or.inl ⟨s, rfl⟩
  | undefined => exact Or.inr rfl
  | null => exact Or.inr rfl
  | bool b => simp [isStrOrFalsy] at h; exact Or.inr h
  | num n => simp [isStrOrFalsy, truthy] at h; simp [truthy, h]
  | arr l => simp [isStrOrFalsy, truthy] at h
  | obj kvs => simp [isStrOrFalsy, truthy] at h

/-- Membership characterisation of the filter value: the record is kept iff
both required fields are nonempty strings and the lowercased filter text
occurs in the lowercased `name` or `business_type`. -/
theorem keepPure_iff {f : String} {b : JSVal} :
    keepPure f b = true ↔
      ∃ n t, jsGetD b "name" = .str n ∧ jsGetD b "business_type" = .str t ∧
        n ≠ "" ∧ t ≠ "" ∧
        (jsIncludes (jsToLower n) f = true ∨ jsIncludes (jsToLower t) f = true) := by
  rcases hn : jsGetD b "name" with _ | _ | b1 | n1 | s1 | l1 | o1 <;>
    rcases ht : jsGetD b "business_type" with _ | _ | b2 | n2 | s2 | l2 | o2 <;>
    simp [keepPure, hn, ht]
  tauto

/-- On a data-model-conformant record the filter callback does not throw and
computes `keepPure`. -/
theorem keepBusiness_eq_pure {b : JSVal} (h : goodForFilter b = true) (f : String) :
    keepBusiness f b = .ok (keepPure f b) := by
  simp only [goodForFilter, Bool.and_eq_true] at h
  obtain ⟨⟨hnn, hname⟩, hbt⟩ := h
  have hgn : jsGetE b "name" = .ok (jsGetD b "name") := jsGetE_of_notNullish hnn _
  have hgt : jsGetE b "business_type" = .ok (jsGetD b "business_type") :=
    jsGetE_of_notNullish hnn _
  simp only [keepBusiness, bind, Except.bind, hgn, hgt]
  rcases hn : jsGetD b "name" with _ | _ | b1 | n1 | s1 | l1 | o1 <;>
    rw [hn] at hname <;>
    rcases ht : jsGetD b "business_type" with _ | _ | b2 | n2 | s2 | l2 | o2 <;>
    rw [ht] at hbt <;>
    simp_all [keepPure, truthy, isStrOrFalsy, asStrRecv, hn, ht]
  by_cases h1 : s1 = "" <;> by_cases h2 : s2 = "" <;>
    simp [h1, h2] <;>
    by_cases hi : jsIncludes (jsToLower s1) f = true <;> (simp [hi]; tauto)

/-- On two kept records every comparator branch evaluates without throwing:
post-filter, `name` and `business_type` are strings, and the date comparator
is total. -/
theorem jsSortLe_ok_of_kept {f sortBy : String} {x y : JSVal}
    (hx : keepPure f x = true) (hy : keepPure f y = true) :
    ∃ c, jsSortLe sortBy x y = .ok c := by
  obtain ⟨nx, tx, hnx, htx, -, -, -⟩ := keepPure_iff.mp hx
  obtain ⟨ny, ty, hny, hty, -, -, -⟩ := keepPure_iff.mp hy
  have hxnn : notNullish x = true := notNullish_of_getD_str hnx
  have hynn : notNullish y = true := notNullish_of_getD_str hny
  have hgx1 : jsGetE x "name" = .ok (.str nx) := by rw [jsGetE_of_notNullish hxnn, hnx]
  have hgy1 : jsGetE y "name" = .ok (.str ny) := by rw [jsGetE_of_notNullish hynn, hny]
  have hgx2 : jsGetE x "business_type" = .ok (.str tx) := by
    rw [jsGetE_of_notNullish hxnn, htx]
  have hgy2 : jsGetE y "business_type" = .ok (.str ty) := by
    rw [jsGetE_of_notNullish hynn, hty]
  have hgxd : jsGetE x "search_date" = .ok (jsGetD x "search_date") :=
    jsGetE_of_notNullish hxnn _
  have hgyd : jsGetE y "search_date" = .ok (jsGetD y "search_date") :=
    jsGetE_of_notNullish hynn _
  unfold jsSortLe jsCompare
  by_cases h1 : sortBy = "name"
  · exact ⟨_, by simp [h1, bind, Except.bind, hgx1, hgy1, asStrRecv]; rfl⟩
  by_cases h2 : sortBy = "type"
  · exact ⟨_, by simp [h1, h2, bind, Except.bind, hgx2, hgy2, asStrRecv]; rfl⟩
  by_cases h3 : sortBy = "date"
  · exact ⟨_, by simp [h1, h2, h3, bind, Except.bind, hgxd, hgyd]; rfl⟩
  · exact ⟨_, by simp [h1, h2, h3, bind, Except.bind]; rfl⟩

/-- C1: for every loaded list conformant to the data model on the fields the
filter reads, and for every filter string and sort key, `query` succeeds and
contains exactly those records whose `name` and `businessType` are nonempty
strings such that the lowercased filter text is a substring of the lowercased
`name` or of the lowercased `businessType`; in particular the empty filter
text keeps every record with both required fields (the empty string is a
substring of everything), and records missing either field are excluded for
every filter text. -/
theorem c1_query_membership (businesses : List JSVal) (filterText sortBy : String)
    (hwf : ∀ b ∈ businesses, goodForFilter b = true) :
    ∃ out, queryRecords businesses filterText sortBy = .ok out ∧
      ∀ b, b ∈ out ↔
        b ∈ businesses ∧
        ∃ n t, jsGetD b "name" = .str n ∧ jsGetD b "business_type" = .str t ∧
          n ≠ "" ∧ t ≠ "" ∧
          (jsIncludes (jsToLower n) (jsToLower filterText) = true ∨
           jsIncludes (jsToLower t) (jsToLower filterText) = true) := by
  have hfil :
      filterE (keepBusiness (jsToLower filterText)) businesses =
        .ok (businesses.filter (keepPure (jsToLower filterText))) :=
    filterE_ok (fun b hb => keepBusiness_eq_pure (hwf b hb) _)
  obtain ⟨out, hout, hperm⟩ :=
    @sortE_total JSVal (jsSortLe sortBy)
      (businesses.filter (keepPure (jsToLower filterText)))
      (fun x hx y hy =>
        jsSortLe_ok_of_kept (List.mem_filter.mp hx).2 (List.mem_filter.mp hy).2)
  refine ⟨out, ?_, ?_⟩
  · simp [queryRecords, bind, Except.bind, hfil, hout]
  · intro b
    rw [hperm.mem_iff, List.mem_filter, keepPure_iff]

/-! ## C2: sorting by date -/

/-- The parsed sort key of a record: `new Date(b.search_date).getTime()`,
`none` for `NaN`. -/
def dateKey (b : JSVal) : Option Int := jsDateMs (jsGetD b "search_date")

/-- The pure date comparator decision: comparator value
`new Date(b.search_date) - new Date(a.search_date)` at most 0, with `NaN`
coerced to `+0` by `SortCompare`. -/
def dateLeP (a b : JSVal) : Bool :=
  decide ((match dateKey b, dateKey a with
           | some tb, some ta => tb - ta
           | _, _ => 0) ≤ 0)

theorem jsSortLe_date_eq {a b : JSVal} (ha : notNullish a = true)
    (hb : notNullish b = true) :
    jsSortLe "date" a b = .ok (dateLeP a b) := by
  simp [jsSortLe, jsCompare, bind, Except.bind, jsGetE_of_notNullish ha,
    jsGetE_of_notNullish hb, dateLeP, dateKey]

/-- Records for the C2 counterexample: one without any `search_date`, one
with a parseable date. -/
def c2recNoDate : JSVal :=
  .obj [("id", .str "b1"), ("name", .str "Old Cafe"), ("business_type", .str "cafe")]

def c2recDated : JSVal :=
  .obj [("id", .str "b2"), ("name", .str "New Bar"), ("business_type", .str "bar"),
        ("search_date", .str "2024-06-01")]

/-- C2 is false as stated: a record with a missing (hence unparseable)
`search_date` placed before a record with a parseable date is NOT moved after
it.  The comparator value involving the invalid date is `NaN`, coerced to `+0`
by `SortCompare`, so the two records count as tied and the stable sort keeps
the unparseable-date record first — the claim demands it be placed after
every record with a parseable date. -/
theorem c2_counterexample :
    dateKey c2recNoDate = none ∧ dateKey c2recDated = some 20240601 ∧
    sortE (jsSortLe "date") [c2recNoDate, c2recDated] =
      .ok [c2recNoDate, c2recDated] := by
  refine ⟨rfl, rfl, rfl⟩

/-- C2 (amended): sorting the filtered list with the date key never throws
and permutes the list; when every record has a parseable `search_date` the
result is ordered descending by the parsed date.  A record with a missing or
unparseable `search_date` is instead treated as tied with every other record
(the comparator yields `NaN`, coerced to `+0`), so the stable sort keeps such
records in their pre-sort positions rather than moving them after all
parseable-date records (see the counterexample). -/
theorem c2_amended_sort (l : List JSVal) (hwf : ∀ b ∈ l, notNullish b = true) :
    ∃ out, sortE (jsSortLe "date") l = .ok out ∧ out.Perm l ∧
      ((∀ b ∈ l, (dateKey b).isSome = true) →
        out.Pairwise (fun x y => ∀ tx ty,
          dateKey x = some tx → dateKey y = some ty → ty ≤ tx)) := by
  have heq : sortE (jsSortLe "date") l = .ok (sortP dateLeP l) :=
    sortE_eq_pure (fun x hx y hy => jsSortLe_date_eq (hwf x hx) (hwf y hy))
  refine ⟨_, heq, perm_sortP, ?_⟩
  intro hpar
  have hpw : (sortP dateLeP l).Pairwise (fun x y => dateLeP x y = true) := by
    refine @pairwise_sortP JSVal dateLeP (fun x => x ∈ l ∧ (dateKey x).isSome = true)
      ?_ ?_ l (fun x hx => ⟨hx, hpar x hx⟩)
    · rintro x y ⟨-, hx⟩ ⟨-, hy⟩
      obtain ⟨tx, htx⟩ := Option.isSome_iff_exists.mp hx
      obtain ⟨ty, hty⟩ := Option.isSome_iff_exists.mp hy
      rcases le_total ty tx with h | h
      · left; simp [dateLeP, htx, hty]; omega
      · right; simp [dateLeP, htx, hty]; omega
    · rintro x y z ⟨-, hx⟩ ⟨-, hy⟩ ⟨-, hz⟩ hxy hyz
      obtain ⟨tx, htx⟩ := Option.isSome_iff_exists.mp hx
      obtain ⟨ty, hty⟩ := Option.isSome_iff_exists.mp hy
      obtain ⟨tz, htz⟩ := Option.isSome_iff_exists.mp hz
      simp [dateLeP, htx, hty, htz] at hxy hyz ⊢
      omega
  refine hpw.imp_of_mem ?_
  intro x y hxm hym hle tx ty htx hty
  simp [dateLeP, htx, hty] at hle
  omega

/-! ## C9: the map-link condition -/

theorem bind_ok {α β : Type} {x : Except Unit α} {f : α → Except Unit β} {c : β}
    (h : Except.bind x f = .ok c) : ∃ a, x = .ok a ∧ f a = .ok c := by
  cases x with
  | error e => simp [Except.bind] at h
  | ok a => exact ⟨a, rfl, by simpa [Except.bind] using h⟩

/-- C9 (amended): a successfully derived card carries a map-link iff both
`latitude` and `longitude` are truthy — present and non-zero/non-empty — not
iff they are present and numeric.  (The value 0 is numeric yet yields no
map-link, and any truthy non-numeric values do yield one; see the
counterexample.) -/
theorem c9_amended_maplink (b : JSVal) (c : Card) (h : deriveView b = .ok c) :
    c.mapLink.isSome = true ↔
      (truthy (jsGetD b "latitude") = true ∧ truthy (jsGetD b "longitude") = true) := by
  have hnn : notNullish b = true := by
    cases b <;> first
      | rfl
      | simp [deriveView, jsGetE, bind, Except.bind] at h
  simp only [deriveView, bind, Except.bind, jsGetE_of_notNullish hnn] at h
  obtain ⟨s, hbt, h⟩ := bind_ok h
  injection h with h
  subst h
  cases hA : truthy (jsGetD b "latitude") <;> cases hB : truthy (jsGetD b "longitude") <;>
    simp [hA, hB]

/-- C9 counterexample record: both coordinates present and numeric, latitude
equal to 0. -/
def c9rec : JSVal :=
  .obj [("id", .str "b9"), ("name", .str "Equator Cafe"), ("business_type", .str "cafe"),
        ("latitude", .num 0), ("longitude", .num 150)]

/-- The card `c9rec` derives to. -/
def c9card : Card :=
  { isError := false, name := "Equator Cafe", businessType := "cafe"
    address := "No Address", mapLink := none, phone := none, website := none
    hoursHtml := none, cardId := "b9" }

/-- C9 is false as stated: this record has both coordinates present and
numeric (latitude 0, longitude 150), so the claim demands a map-link, yet the
derived view has none — the code tests truthiness, and the number 0 is
falsy. -/
theorem c9_counterexample :
    jsGetD c9rec "latitude" = .num 0 ∧ jsGetD c9rec "longitude" = .num 150 ∧
    truthy (.num 0) = false ∧
    deriveView c9rec = .ok c9card ∧ c9card.mapLink = none :=
  ⟨rfl, rfl, rfl, rfl, rfl⟩

/-! ## C3: opening-hours derivation -/

/-- Totality of the guarded opening-hours expression of the `part_000`
variant, and emptiness on every falsy (absent or empty) `opening_hours`. -/
theorem scheduleHtml_falsy {v : JSVal} (h : truthy v = false) :
    scheduleHtml v = "" := by
  simp [scheduleHtml, h]

/-- A record with both required fields but no `opening_hours`. -/
def c3rec : JSVal :=
  .obj [("id", .str "biz-1"), ("name", .str "Cafe A"), ("business_type", .str "cafe")]

/-- The card `c3rec` derives to under the `part_000` variant. -/
def c3card : Card :=
  { isError := false, name := "Cafe A", businessType := "cafe"
    address := "No Address", mapLink := none, phone := none, website := none
    hoursHtml := none, cardId := "biz-1" }

/-- C3: the `part_000` variant derives an empty schedule (no hours block) for
absent and for empty `opening_hours`, without an error — but the
`src/dashboard.js` variant evaluates `b.opening_hours.split('\n')`
unconditionally, so the very same record throws a `TypeError` there
(`undefined` has no `split` method), aborting the batch. -/
theorem c3_openingHours_eval :
    scheduleHtml .undefined = "" ∧ scheduleHtml (.str "") = "" ∧
    deriveView c3rec = .ok c3card ∧ c3card.hoursHtml = none ∧
    deriveViewJs c3rec = .error () :=
  ⟨rfl, rfl, rfl, rfl, rfl⟩

/-! ## C4: isolation of a failing record -/

/-- Records with corrupted (non-string) `business_type`, and a good one. -/
def c4bad1 : JSVal :=
  .obj [("id", .str "c1"), ("name", .str "Alpha"), ("business_type", .num 1)]

def c4bad2 : JSVal :=
  .obj [("id", .str "c2"), ("name", .str "Beta"), ("business_type", .num 2)]

def c4good : JSVal :=
  .obj [("id", .str "c3"), ("name", .str "Gamma"), ("business_type", .str "bar")]

/-- The card `c4good` derives to. -/
def c4goodCard : Card :=
  { isError := false, name := "Gamma", businessType := "bar"
    address := "No Address", mapLink := none, phone := none, website := none
    hoursHtml := none, cardId := "c3" }

/-- C4: in the `part_000` variant, under the date sort key the per-record
`catch` does isolate corrupted records (each non-string `business_type`
yields one error placeholder, and a sibling renders normally); but with the
`type` sort key the comparator itself evaluates
`a.business_type.localeCompare(...)` and throws before any card is derived,
so the whole render aborts and no placeholder is produced — and in the
`src/dashboard.js` variant, which has no per-record `catch` at all, one
corrupted record aborts the batch under any sort key. -/
theorem c4_render_eval :
    renderCards [c4bad1, c4bad2] "" "date" = .ok [errorCard, errorCard] ∧
    renderCards [c4bad1, c4good] "" "date" = .ok [errorCard, c4goodCard] ∧
    renderCards [c4bad1, c4bad2] "" "type" = .error () ∧
    renderCardsJs [c4bad1, c4good] "" "date" = .error () :=
  ⟨rfl, rfl, rfl, rfl⟩

/-! ## Decimal rendering is injective (for id uniqueness) -/

/-- Value of a little-endian digit list. -/
def revDigitsVal : List Char → Nat
  | [] => 0
  | c :: cs => digitVal c + 10 * revDigitsVal cs

theorem digitVal_digitChar {d : Nat} (h : d < 10) : digitVal (digitChar d) = d := by
  interval_cases d <;> rfl

theorem revDigitsVal_natRevDigits :
    ∀ fuel n, n ≤ fuel → revDigitsVal (natRevDigits fuel n) = n := by
  intro fuel
  induction fuel with
  | zero =>
      intro n h
      interval_cases n
      rfl
  | succ f ih =>
      intro n h
      match n with
      | 0 => rfl
      | m + 1 =>
          have hdiv : (m + 1) / 10 ≤ f := by
            have := Nat.div_lt_self (Nat.succ_pos m) (by omega : 1 < 10)
            omega
          have hmod : (m + 1) % 10 < 10 := Nat.mod_lt _ (by omega)
          show revDigitsVal (digitChar ((m + 1) % 10) :: natRevDigits f ((m + 1) / 10)) = m + 1
          rw [revDigitsVal, ih _ hdiv, digitVal_digitChar hmod]
          omega

theorem jsNatStr_inj {a b : Nat} (ha : a ≠ 0) (hb : b ≠ 0)
    (h : jsNatStr a = jsNatStr b) : a = b := by
  rw [jsNatStr, jsNatStr, if_neg ha, if_neg hb] at h
  injection h with h
  have h2 : natRevDigits a a = natRevDigits b b := List.reverse_injective h
  have ha2 := revDigitsVal_natRevDigits a a le_rfl
  rw [h2, revDigitsVal_natRevDigits b b le_rfl] at ha2
  omega

/-- Appending to a fixed front string is injective. -/
theorem append_left_inj {p a b : String} (h : p ++ a = p ++ b) : a = b := by
  have hd : (p ++ a).data = (p ++ b).data := by rw [h]
  simp only [String.data_append] at hd
  have := List.append_cancel_left hd
  cases a; cases b; exact congrArg String.mk this

/-! ## Frame and id lemmas about `assignIds` -/

theorem lookupKV_setKV_self (kvs : List (String × JSVal)) (k : String) (v : JSVal) :
    lookupKV (setKV kvs k v) k = v := by
  induction kvs with
  | nil => simp [setKV, lookupKV]
  | cons p rest ih =>
      obtain ⟨k', v'⟩ := p
      by_cases h : k' = k
      · simp [setKV, h, lookupKV]
      · simp [setKV, h, lookupKV, ih]

theorem lookupKV_setKV_ne (kvs : List (String × JSVal)) {k k' : String} (v : JSVal)
    (h : k' ≠ k) : lookupKV (setKV kvs k v) k' = lookupKV kvs k' := by
  have h2 : k ≠ k' := Ne.symm h
  induction kvs with
  | nil => simp [setKV, lookupKV, h2]
  | cons p rest ih =>
      obtain ⟨k'', v''⟩ := p
      by_cases hk : k'' = k
      · subst hk
        simp [setKV, lookupKV, h2]
      · simp [setKV, hk, lookupKV, ih]

theorem assignId_frame {b b' : JSVal} {i : Nat} (h : assignId i b = .ok b') :
    (∀ k, k ≠ "id" → jsGetD b' k = jsGetD b k) ∧
    (truthy (jsGetD b "id") = true → b' = b) := by
  cases b with
  | undefined => exact Except.noConfusion h
  | null => exact Except.noConfusion h
  | obj kvs =>
      simp only [assignId] at h
      injection h with h
      subst h
      by_cases hid : truthy (lookupKV kvs "id") = true
      · constructor
        · intro k hk
          simp [hid]
        · intro _
          simp [hid]
      · rw [if_neg hid]
        constructor
        · intro k hk
          simp [jsGetD, lookupKV_setKV_ne kvs _ hk]
        · intro hcontra
          exact absurd hcontra (by simpa [jsGetD] using hid)
  | bool bb =>
      simp only [assignId] at h
      injection h with h
      subst h
      exact ⟨fun _ _ => rfl, fun _ => rfl⟩
  | num n =>
      simp only [assignId] at h
      injection h with h
      subst h
      exact ⟨fun _ _ => rfl, fun _ => rfl⟩
  | str s =>
      simp only [assignId] at h
      injection h with h
      subst h
      exact ⟨fun _ _ => rfl, fun _ => rfl⟩
  | arr l =>
      simp only [assignId] at h
      injection h with h
      subst h
      exact ⟨fun _ _ => rfl, fun _ => rfl⟩

theorem assignId_sets_id {kvs : List (String × JSVal)} {i : Nat}
    (hid : truthy (lookupKV kvs "id") = false) :
    assignId i (.obj kvs) =
      .ok (.obj (setKV kvs "id" (.str ("biz-" ++ jsNatStr (i + 1))))) := by
  simp [assignId, hid]

theorem assignId_ok {b : JSVal} (h : notNullish b = true) (i : Nat) :
    ∃ b', assignId i b = .ok b' := by
  cases b <;> simp_all [assignId, notNullish]

theorem assignIds_ok_spec :
    ∀ (s : Nat) (l l' : List JSVal), assignIds s l = .ok l' →
      l'.length = l.length ∧
      (∀ i (hi : i < l.length) (hi' : i < l'.length),
        (∀ k, k ≠ "id" → jsGetD l'[i] k = jsGetD l[i] k) ∧
        (truthy (jsGetD l[i] "id") = true → l'[i] = l[i]) ∧
        (truthy (jsGetD l[i] "id") = false → ∀ kvs, l[i] = .obj kvs →
          jsGetD l'[i] "id" = .str ("biz-" ++ jsNatStr (s + i + 1))))
  | _, [], l', h => by
      cases h
      exact ⟨rfl, fun i hi => absurd hi (by simp)⟩
  | s, b :: t, l', h => by
      simp only [assignIds] at h
      cases hb : assignId s b with
      | error e => rw [hb] at h; exact Except.noConfusion h
      | ok b' =>
          rw [hb] at h
          cases ht : assignIds (s + 1) t with
          | error t'' => rw [ht] at h; exact Except.noConfusion h
          | ok t' =>
              rw [ht] at h
              injection h with h
              subst h
              obtain ⟨hlen, hspec⟩ := assignIds_ok_spec (s + 1) t t' ht
              refine ⟨by simp [hlen], ?_⟩
              intro i hi hi'
              match i with
              | 0 =>
                  simp only [List.getElem_cons_zero]
                  obtain ⟨hfr, hkeep⟩ := assignId_frame hb
                  refine ⟨hfr, hkeep, ?_⟩
                  intro hfalse kvs hkvs
                  subst hkvs
                  rw [assignId_sets_id (by simpa [jsGetD] using hfalse)] at hb
                  injection hb with hb
                  rw [← hb]
                  simp [jsGetD, lookupKV_setKV_self]
              | j + 1 =>
                  simp only [List.getElem_cons_succ]
                  have hj : j < t.length := by simpa using hi
                  have hj' : j < t'.length := by simpa using hi'
                  obtain ⟨h1, h2, h3⟩ := hspec j hj hj'
                  refine ⟨h1, h2, ?_⟩
                  intro hfalse kvs hkvs
                  have heq : s + 1 + j + 1 = s + (j + 1) + 1 := by omega
                  rw [← heq]
                  exact h3 hfalse kvs hkvs

theorem assignIds_total :
    ∀ (s : Nat) (l : List JSVal), (∀ b ∈ l, notNullish b = true) →
      ∃ l', assignIds s l = .ok l'
  | _, [], _ => ⟨[], rfl⟩
  | s, b :: t, h => by
      obtain ⟨b', hb⟩ := assignId_ok (h b (List.mem_cons_self b t)) s
      obtain ⟨t', ht⟩ := assignIds_total (s + 1) t
        (fun x hx => h x (List.mem_cons_of_mem b hx))
      exact ⟨b' :: t', by simp [assignIds, hb, ht]⟩

/-! ## C6: synthetic id assignment -/

/-- A batch whose first record carries the collector-supplied id `biz-2` and
whose second record has no id. -/
def c6inA : JSVal :=
  .obj [("id", .str "biz-2"), ("name", .str "Cafe A"), ("business_type", .str "cafe")]

def c6inB : JSVal :=
  .obj [("name", .str "Bar B"), ("business_type", .str "bar")]

/-- The second record after load: it was at 0-based position 1, so it is
assigned `biz-2` — colliding with the pre-existing id of the first record. -/
def c6outB : JSVal :=
  .obj [("name", .str "Bar B"), ("business_type", .str "bar"), ("id", .str "biz-2")]

/-- C6 is false as stated: ids in a loaded batch are not pairwise unique.
A pre-existing id `biz-2` on the first record collides with the id assigned
to the second record (input position 2), because assignment is purely
positional and never checks existing ids. -/
theorem c6_counterexample :
    assignIds 0 [c6inA, c6inB] = .ok [c6inA, c6outB] ∧
    jsGetD c6inA "id" = .str "biz-2" ∧ jsGetD c6outB "id" = .str "biz-2" :=
  ⟨rfl, rfl, rfl⟩

/-- C6 (amended): in a batch of record objects, every record that lacked a
(truthy) id is assigned `"biz-" ++ (1-based input position)`, in stable input
order, and these assigned ids are pairwise distinct among themselves; records
with a pre-existing truthy id keep it unchanged.  Uniqueness of the whole
batch, however, can fail: a pre-existing id may collide with an assigned one
(see the counterexample) or with another pre-existing id. -/
theorem c6_amended_ids (l : List JSVal) (hobj : ∀ b ∈ l, ∃ kvs, b = .obj kvs) :
    ∃ l', assignIds 0 l = .ok l' ∧ l'.length = l.length ∧
      (∀ i (hi : i < l.length) (hi' : i < l'.length),
        (truthy (jsGetD l[i] "id") = true → l'[i] = l[i]) ∧
        (truthy (jsGetD l[i] "id") = false →
          jsGetD l'[i] "id" = .str ("biz-" ++ jsNatStr (i + 1)))) ∧
      (∀ i j (hi : i < l.length) (hj : j < l.length)
         (hi' : i < l'.length) (hj' : j < l'.length),
        truthy (jsGetD l[i] "id") = false → truthy (jsGetD l[j] "id") = false →
        i ≠ j → jsGetD l'[i] "id" ≠ jsGetD l'[j] "id") := by
  have hnn : ∀ b ∈ l, notNullish b = true := by
    intro b hbm
    obtain ⟨kvs, hk⟩ := hobj b hbm
    subst hk
    rfl
  obtain ⟨l', hl⟩ := assignIds_total 0 l hnn
  obtain ⟨hlen, hspec⟩ := assignIds_ok_spec 0 l l' hl
  refine ⟨l', hl, hlen, ?_, ?_⟩
  · intro i hi hi'
    obtain ⟨-, h2, h3⟩ := hspec i hi hi'
    refine ⟨h2, fun hf => ?_⟩
    obtain ⟨kvs, hk⟩ := hobj l[i] (List.getElem_mem hi)
    simpa using h3 hf kvs hk
  · intro i j hi hj hi' hj' hfi hfj hne
    obtain ⟨-, -, h3i⟩ := hspec i hi hi'
    obtain ⟨-, -, h3j⟩ := hspec j hj hj'
    obtain ⟨kvsi, hki⟩ := hobj l[i] (List.getElem_mem hi)
    obtain ⟨kvsj, hkj⟩ := hobj l[j] (List.getElem_mem hj)
    rw [h3i hfi kvsi hki, h3j hfj kvsj hkj]
    intro hcontra
    injection hcontra with hcontra
    have h4 := append_left_inj hcontra
    have h5 := jsNatStr_inj (by omega) (by omega) h4
    omega

/-! ## C5: payload shapes accepted by load -/

/-- `Array.isArray`. -/
def isArrB : JSVal → Bool
  | .arr _ => true
  | _ => false

/-- A payload that is neither a bare array nor an object with a `data`
array: its `data` field is the (truthy) number 5. -/
def c5payload : JSVal := .obj [("data", .num 5)]

/-- C5 is false as stated: this payload has a shape other than the two
accepted ones, so the claim demands zero records; but `data.data || []`
keeps any truthy `data` value, so `this.businesses` is assigned the number 5
and the subsequent `.map` throw (caught) leaves it there — the stored list is
the number 5, not an empty record list. -/
theorem c5_counterexample :
    loadBusinesses (.arr []) (.ok c5payload) = (.num 5, true) ∧
    JSVal.num 5 ≠ .arr [] :=
  ⟨rfl, fun h => JSVal.noConfusion h⟩

/-- C5 (amended): a bare array payload and the same array wrapped in a `data`
field load identically (same records, same id assignment); a payload that is
not an array, not `null`, and has no truthy `data` field yields zero records;
but an object with a truthy non-array `data` field leaves the stored value as
that non-array (see the counterexample), and a `null` payload keeps the prior
list (reading `.data` off `null` throws into the `catch`). -/
theorem c5_amended_load :
    (∀ (prior : JSVal) (l : List JSVal),
       loadBusinesses prior (.ok (.arr l)) =
         loadBusinesses prior (.ok (.obj [("data", .arr l)]))) ∧
    (∀ (prior data : JSVal), notNullish data = true → isArrB data = false →
       truthy (jsGetD data "data") = false →
       loadBusinesses prior (.ok data) = (.arr [], false)) ∧
    (∀ prior : JSVal, loadBusinesses prior (.ok .null) = (prior, true)) := by
  refine ⟨fun prior l => rfl, ?_, fun prior => rfl⟩
  intro prior data hnn harr htr
  cases data with
  | undefined => simp [notNullish] at hnn
  | null => simp [notNullish] at hnn
  | arr l => simp [isArrB] at harr
  | bool b => simp [loadBusinesses, extractArr, htr, assignIds]
  | num n => simp [loadBusinesses, extractArr, htr, assignIds]
  | str s => simp [loadBusinesses, extractArr, htr, assignIds]
  | obj kvs => simp [loadBusinesses, extractArr, htr, assignIds]

/-! ## C7: load failure leaves the prior list -/

/-- C7: when the fetch rejects, the response is not ok, or the body fails to
parse, `loadBusinesses` returns normally (no exception reaches the caller),
logs the error diagnostic, and leaves the record list exactly as it was —
whatever the prior list. -/
theorem c7_load_failure (prior : JSVal) (r : FetchOutcome) (h : ∀ v, r ≠ .ok v) :
    loadBusinesses prior r = (prior, true) := by
  cases r with
  | reject => rfl
  | badStatus => rfl
  | badJson => rfl
  | ok v => exact absurd rfl (h v)

/-! ## C8: detail selection on missing ids -/

theorem strictEqStr_iff {v : JSVal} {s : String} :
    strictEqStr v s = true ↔ v = .str s := by
  cases v <;> simp [strictEqStr]

theorem jsGetE_ok_val {b : JSVal} {k : String} {v : JSVal} (h : jsGetE b k = .ok v) :
    v = jsGetD b k := by
  cases b <;> simp_all [jsGetE]

theorem findByIdE_cons {idArg : String} {b : JSVal} {t : List JSVal} {v : JSVal}
    (hb : jsGetE b "id" = .ok v) :
    findByIdE idArg (b :: t) =
      if strictEqStr v idArg = true then .ok (some b) else findByIdE idArg t := by
  simp [findByIdE, bind, Except.bind, hb]

theorem findByIdE_ok_of_wf (idArg : String) :
    ∀ {l : List JSVal}, (∀ b ∈ l, notNullish b = true) →
      ∃ r, findByIdE idArg l = .ok r
  | [], _ => ⟨none, rfl⟩
  | b :: t, h => by
      have hb := jsGetE_of_notNullish (h b (List.mem_cons_self b t)) "id"
      rw [findByIdE_cons hb]
      by_cases hs : strictEqStr (jsGetD b "id") idArg = true
      · exact ⟨some b, by rw [if_pos hs]⟩
      · obtain ⟨r, hr⟩ := findByIdE_ok_of_wf idArg
          (fun x hx => h x (List.mem_cons_of_mem b hx))
        exact ⟨r, by rw [if_neg hs, hr]⟩

theorem findByIdE_none_iff (idArg : String) :
    ∀ {l : List JSVal}, (∀ b ∈ l, notNullish b = true) →
      (findByIdE idArg l = .ok none ↔ ∀ b ∈ l, jsGetD b "id" ≠ .str idArg)
  | [], _ => by simp [findByIdE]
  | b :: t, h => by
      have hb := jsGetE_of_notNullish (h b (List.mem_cons_self b t)) "id"
      have iht := findByIdE_none_iff idArg
        (fun x hx => h x (List.mem_cons_of_mem b hx))
      rw [findByIdE_cons hb]
      by_cases hs : strictEqStr (jsGetD b "id") idArg = true
      · have hv := strictEqStr_iff.mp hs
        rw [if_pos hs]
        simp [List.forall_mem_cons, hv]
      · have hv : jsGetD b "id" ≠ .str idArg := fun hc => hs (strictEqStr_iff.mpr hc)
        rw [if_neg hs]
        simp [List.forall_mem_cons, hv, iht]

theorem findByIdE_some {idArg : String} :
    ∀ {l : List JSVal} {b : JSVal}, findByIdE idArg l = .ok (some b) →
      b ∈ l ∧ jsGetD b "id" = .str idArg
  | [], b, h => by simp [findByIdE] at h
  | x :: t, b, h => by
      cases hx : jsGetE x "id" with
      | error e => simp [findByIdE, bind, Except.bind, hx] at h
      | ok v =>
          rw [findByIdE_cons hx] at h
          by_cases hs : strictEqStr v idArg = true
          · rw [if_pos hs] at h
            injection h with h
            injection h with h
            subst h
            have hvv := jsGetE_ok_val hx
            exact ⟨List.mem_cons_self x t, by rw [← hvv]; exact strictEqStr_iff.mp hs⟩
          · rw [if_neg hs] at h
            obtain ⟨hm, hid⟩ := findByIdE_some h
            exact ⟨List.mem_cons_of_mem x hm, hid⟩

/-- C8: on a well-formed authoritative list, `showBusinessDetails` returns
with the whole state unchanged and the not-found diagnostic logged exactly
when the id is empty or matches no record of the authoritative list — the
lookup runs over the full list `this.businesses`, never the filtered view;
any other outcome selects a record (the logged flag is then false). -/
theorem c8_detail_notfound (st : DashState) (l : List JSVal)
    (hb : st.businesses = .arr l) (hwf : ∀ b ∈ l, notNullish b = true)
    (idArg : String) :
    showBusinessDetails st idArg = .ok (st, true) ↔
      (idArg = "" ∨ ∀ b ∈ l, jsGetD b "id" ≠ .str idArg) := by
  obtain ⟨bz, sel⟩ := st
  have hb' : bz = .arr l := hb
  subst hb'
  by_cases hid : idArg = ""
  · simp [showBusinessDetails, hid]
  · simp only [showBusinessDetails, if_neg hid]
    obtain ⟨rres, hr⟩ := findByIdE_ok_of_wf idArg hwf
    rw [hr]
    cases rres with
    | none =>
        have hall := (findByIdE_none_iff idArg hwf).mp hr
        simp only [List.forall_mem_cons]
        simp
        exact Or.inr hall
    | some b =>
        obtain ⟨hmem, hidv⟩ := findByIdE_some hr
        have hg := jsGetE_of_notNullish (hwf b hmem) "opening_hours"
        dsimp only
        rw [hg]
        dsimp only
        have hfalse : ¬(idArg = "" ∨ ∀ b' ∈ l, jsGetD b' "id" ≠ .str idArg) := by
          rintro (hc | hall)
          · exact hid hc
          · exact hall b hmem hidv
        constructor
        · intro hcontra
          exfalso
          split at hcontra
          · split at hcontra
            · simp at hcontra
            · exact Except.noConfusion hcontra
          · simp at hcontra
        · intro hcase
          exact absurd hcase hfalse

/-! ## C10: the Catalog never mutates collector-supplied fields -/

/-- C10: load preserves every collector-supplied field of every record other
than injecting an id — position by position, every key other than `id` reads
the same after load, and a record whose id was already truthy is returned
entirely unchanged; `renderBusinesses` returns the state unchanged (it
filters into a fresh array and sorts that copy); `showBusinessDetails` never
changes the authoritative list, whichever way it returns; and every record a
query emits is an element of the authoritative list itself (same value, no
copy-and-modify), in the list's own order for ties.  View derivation
(`cardOf`) is a pure function of the record and is covered by the query
conjunct. -/
theorem c10_frame :
    (∀ (l l' : List JSVal), assignIds 0 l = .ok l' →
       l'.length = l.length ∧
       ∀ i (hi : i < l.length) (hi' : i < l'.length),
         (∀ k, k ≠ "id" → jsGetD l'[i] k = jsGetD l[i] k) ∧
         (truthy (jsGetD l[i] "id") = true → l'[i] = l[i])) ∧
    (∀ (st : DashState) (filterText sortBy : String),
       (renderStep st filterText sortBy).1 = st) ∧
    (∀ (st : DashState) (idArg : String),
       stateBusinesses (showBusinessDetails st idArg) = st.businesses) ∧
    (∀ (l : List JSVal) (filterText sortBy : String) (out : List JSVal),
       queryRecords l filterText sortBy = .ok out → ∀ b ∈ out, b ∈ l) := by
  refine ⟨?_, ?_, ?_, ?_⟩
  · intro l l' h
    obtain ⟨hlen, hspec⟩ := assignIds_ok_spec 0 l l' h
    exact ⟨hlen, fun i hi hi' => ⟨(hspec i hi hi').1, (hspec i hi hi').2.1⟩⟩
  · intro st f sb
    cases hsb : st.businesses <;> simp [renderStep, hsb]
  · intro st idArg
    by_cases hid : idArg = ""
    · simp [showBusinessDetails, stateBusinesses, hid]
    · obtain ⟨bz, sel⟩ := st
      cases hsb : bz with
      | arr l =>
        subst hsb
        simp only [showBusinessDetails, if_neg hid]
        try dsimp only
        cases hf : findByIdE idArg l with
        | error e => simp [stateBusinesses]
        | ok rres =>
            cases rres with
            | none => simp [stateBusinesses]
            | some b =>
                try dsimp only
                cases hg : jsGetE b "opening_hours" with
                | error e => simp [stateBusinesses]
                | ok v =>
                    try dsimp only
                    by_cases ht : truthy v = true
                    · cases v <;> simp [stateBusinesses, ht]
                    · simp [stateBusinesses, ht]
      | undefined => subst hsb; simp [showBusinessDetails, stateBusinesses, hid]
      | null => subst hsb; simp [showBusinessDetails, stateBusinesses, hid]
      | bool bb => subst hsb; simp [showBusinessDetails, stateBusinesses, hid]
      | num nn => subst hsb; simp [showBusinessDetails, stateBusinesses, hid]
      | str ss => subst hsb; simp [showBusinessDetails, stateBusinesses, hid]
      | obj kvs => subst hsb; simp [showBusinessDetails, stateBusinesses, hid]
  · intro l f sb out h
    obtain ⟨fl, hfl, hsort⟩ := bind_ok h
    intro b hbm
    exact filterE_sub hfl b ((sortE_ok_perm hsort).mem_iff.mp hbm)

/-! ## Witnesses: each claim theorem applied at a concrete input -/

def c1wA : JSVal :=
  .obj [("id", .str "w1"), ("name", .str "Cafe A"), ("business_type", .str "cafe")]

def c1wB : JSVal :=
  .obj [("id", .str "w2"), ("name", .str "Bar B"), ("business_type", .str "bar")]

/-- C1 witness: the membership characterisation at a concrete two-record
batch, filter text CAFE and the name sort key. -/
theorem c1_query_membership_witness :
    (∀ b ∈ [c1wA, c1wB], goodForFilter b = true) ∧
    (∃ out, queryRecords [c1wA, c1wB] "CAFE" "name" = .ok out ∧
      ∀ b, b ∈ out ↔
        b ∈ [c1wA, c1wB] ∧
        ∃ n t, jsGetD b "name" = .str n ∧ jsGetD b "business_type" = .str t ∧
          n ≠ "" ∧ t ≠ "" ∧
          (jsIncludes (jsToLower n) (jsToLower "CAFE") = true ∨
           jsIncludes (jsToLower t) (jsToLower "CAFE") = true)) :=
  ⟨by decide, c1_query_membership [c1wA, c1wB] "CAFE" "name" (by decide)⟩

def c2w1 : JSVal :=
  .obj [("name", .str "A"), ("business_type", .str "x"), ("search_date", .str "2024-01-02")]

def c2w2 : JSVal :=
  .obj [("name", .str "B"), ("business_type", .str "y"), ("search_date", .str "2023-05-06")]

/-- C2 witness: the amended sort statement at a concrete two-record batch
with parseable dates. -/
theorem c2_amended_sort_witness :
    (∀ b ∈ [c2w1, c2w2], notNullish b = true) ∧
    (∃ out, sortE (jsSortLe "date") [c2w1, c2w2] = .ok out ∧ out.Perm [c2w1, c2w2] ∧
      ((∀ b ∈ [c2w1, c2w2], (dateKey b).isSome = true) →
        out.Pairwise (fun x y => ∀ tx ty,
          dateKey x = some tx → dateKey y = some ty → ty ≤ tx))) :=
  ⟨by decide, c2_amended_sort [c2w1, c2w2] (by decide)⟩

/-- C5 witness: the zero-record branch of the amended load statement at a
concrete object payload without a `data` field. -/
theorem c5_amended_load_witness :
    notNullish (.obj [("x", .num 1)]) = true ∧
    isArrB (.obj [("x", .num 1)]) = false ∧
    truthy (jsGetD (.obj [("x", .num 1)]) "data") = false ∧
    loadBusinesses (.arr [.str "prior"]) (.ok (.obj [("x", .num 1)])) = (.arr [], false) :=
  ⟨rfl, rfl, rfl,
    c5_amended_load.2.1 (.arr [.str "prior"]) (.obj [("x", .num 1)]) rfl rfl rfl⟩

def c6wrec : JSVal := .obj [("name", .str "Solo"), ("business_type", .str "cafe")]

/-- C6 witness: the amended id-assignment statement at a concrete singleton
batch without a pre-existing id. -/
theorem c6_amended_ids_witness :
    (∀ b ∈ [c6wrec], ∃ kvs, b = JSVal.obj kvs) ∧
    (∃ l', assignIds 0 [c6wrec] = .ok l' ∧ l'.length = [c6wrec].length ∧
      (∀ i (hi : i < [c6wrec].length) (hi' : i < l'.length),
        (truthy (jsGetD [c6wrec][i] "id") = true → l'[i] = [c6wrec][i]) ∧
        (truthy (jsGetD [c6wrec][i] "id") = false →
          jsGetD l'[i] "id" = .str ("biz-" ++ jsNatStr (i + 1)))) ∧
      (∀ i j (hi : i < [c6wrec].length) (hj : j < [c6wrec].length)
         (hi' : i < l'.length) (hj' : j < l'.length),
        truthy (jsGetD [c6wrec][i] "id") = false →
        truthy (jsGetD [c6wrec][j] "id") = false →
        i ≠ j → jsGetD l'[i] "id" ≠ jsGetD l'[j] "id")) := by
  have hobj : ∀ b ∈ [c6wrec], ∃ kvs, b = JSVal.obj kvs := by
    intro b hbm
    rw [List.mem_singleton] at hbm
    subst hbm
    exact ⟨_, rfl⟩
  exact ⟨hobj, c6_amended_ids [c6wrec] hobj⟩

/-- C7 witness: a parse failure with a concrete nonempty prior list. -/
theorem c7_load_failure_witness :
    loadBusinesses (.arr [.str "prior"]) .badJson = (.arr [.str "prior"], true) :=
  c7_load_failure _ _ (fun _ h => FetchOutcome.noConfusion h)

def c8wrec : JSVal :=
  .obj [("id", .str "biz-1"), ("name", .str "Cafe W"), ("business_type", .str "cafe")]

def c8wst : DashState := { businesses := .arr [c8wrec], selectedBusiness := none }

/-- C8 witness: the not-found characterisation at a concrete state, for an
unmatched id, plus the empty-id evaluation. -/
theorem c8_detail_notfound_witness :
    (showBusinessDetails c8wst "nonexistent-id" = .ok (c8wst, true) ↔
      ("nonexistent-id" = "" ∨
        ∀ b ∈ [c8wrec], jsGetD b "id" ≠ .str "nonexistent-id")) ∧
    showBusinessDetails c8wst "" = .ok (c8wst, true) :=
  ⟨c8_detail_notfound c8wst [c8wrec] rfl (by decide) "nonexistent-id", rfl⟩

def c9wrec : JSVal :=
  .obj [("id", .str "b10"), ("name", .str "Harbour Bar"), ("business_type", .str "bar"),
        ("latitude", .num (-33)), ("longitude", .num 151)]

def c9wcard : Card :=
  { isError := false, name := "Harbour Bar", businessType := "bar"
    address := "No Address"
    mapLink := some "https://www.google.com/maps/search/?api=1&query=-33,151"
    phone := none, website := none, hoursHtml := none, cardId := "b10" }

/-- C9 witness: the truthiness characterisation at a concrete record with
truthy numeric coordinates, whose derived card does carry the map-link. -/
theorem c9_amended_maplink_witness :
    deriveView c9wrec = .ok c9wcard ∧
    (c9wcard.mapLink.isSome = true ↔
      (truthy (jsGetD c9wrec "latitude") = true ∧
       truthy (jsGetD c9wrec "longitude") = true)) :=
  ⟨rfl, c9_amended_maplink c9wrec c9wcard rfl⟩

def c10rec : JSVal := .obj [("name", .str "Zed Pub"), ("business_type", .str "pub")]

def c10out : JSVal :=
  .obj [("name", .str "Zed Pub"), ("business_type", .str "pub"), ("id", .str "biz-1")]

def c10st : DashState := { businesses := .arr [c10out], selectedBusiness := none }

/-- C10 witness: each frame conjunct applied at a concrete record, state and
query. -/
theorem c10_frame_witness :
    jsGetD c10out "name" = jsGetD c10rec "name" ∧
    (renderStep c10st "a" "name").1 = c10st ∧
    stateBusinesses (showBusinessDetails c10st "zz") = c10st.businesses ∧
    c10rec ∈ [c10rec] := by
  refine ⟨?_, ?_, ?_, ?_⟩
  · exact ((c10_frame.1 [c10rec] [c10out] rfl).2 0 (by simp) (by simp)).1 "name"
      (by decide)
  · exact c10_frame.2.1 c10st "a" "name"
  · exact c10_frame.2.2.1 c10st "zz"
  · exact c10_frame.2.2.2 [c10rec] "" "date" [c10rec] rfl c10rec (by simp)
